import Mathlib

/-!
Verification of the `http()` rollup plugin of niht-chef, shipped twice in the
repository: in `src/index.js` (lines 235-278) and in `src/unnamed/part_000`
(lines 180-221).  The plugin keeps a `Map` from short identifiers to records
`{ isHttps, url }`; `resolveId` fills the table for specifiers matching the
regex `^https?:\/\/` and `load` fetches the recorded URL.

Strings are modelled as `List Char`; the JS `Map` with string keys is an
association list with `Map.set` semantics (update in place, else append).
Each plugin operation returns (return value, new table, network requests
issued), so that frame conditions about requests and table entries can be
stated.
-/

namespace NihtChef

/-- JS string-prefix test: `startsWith p s` holds when `p` is an initial
segment of `s`; used to model the anchored regex `^https?:\/\/`. -/
def startsWith : List Char → List Char → Bool
  | [], _ => true
  | _ :: _, [] => false
  | p :: ps, c :: cs => p = c && startsWith ps cs

/-- JS `id.substr(id.lastIndexOf(c) + 1)`: the suffix after the last
occurrence of `c`, or the whole string when `c` does not occur
(`lastIndexOf` returns `-1` and `substr(0)` is the whole string). -/
def afterLast (c : Char) : List Char → List Char
  | [] => []
  | a :: as => if c ∈ as then afterLast c as else if a = c then as else a :: as

/-- JS `pth.split(".").shift()`: the segment of `pth` before its first `.`
(`"".split(".")` is `[""]`, so the empty string maps to the empty string). -/
def takeBeforeDot : List Char → List Char
  | [] => []
  | a :: as => if a = '.' then [] else a :: takeBeforeDot as

/-- The record stored in the `urls` map: `{ isHttps: ..., url: id }`. -/
structure UrlRecord where
  isHttps : Bool
  url : List Char
deriving DecidableEq

/-- The `urls` map (`new Map()`), keys in insertion order. -/
abbrev UrlMap := List (List Char × UrlRecord)

/-- JS `Map.prototype.set`: update the value in place when the key exists,
otherwise append the pair at the end. -/
def mapSet (k : List Char) (v : UrlRecord) : UrlMap → UrlMap
  | [] => [(k, v)]
  | (k', v') :: rest => if k' = k then (k, v) :: rest else (k', v') :: mapSet k v rest

/-- JS `Map.prototype.get` (`undefined` becomes `none`). -/
def mapGet (k : List Char) : UrlMap → Option UrlRecord
  | [] => none
  | (k', v') :: rest => if k' = k then some v' else mapGet k rest

/-- JS `Map.prototype.has`. -/
def mapHas (k : List Char) (m : UrlMap) : Bool :=
  (mapGet k m).isSome

/-- An outbound network request: the URL fetched and whether the
`follow-redirects` `https` transport (rather than `http`) is used. -/
structure Request where
  url : List Char
  https : Bool
deriving DecidableEq

/-- The test of the regex `httpExp = /^https?:\/\//` on a specifier: it
matches exactly the strings starting with `http://` or `https://`
(the `s?` is greedy, and the two prefixes are mutually exclusive). -/
def httpExpTest (s : List Char) : Bool :=
  startsWith ("http://".toList) s || startsWith ("https://".toList) s

/-- `match[0]` of `httpExp.exec(id)` when the match succeeds: `https://`
when the specifier starts with it, otherwise `http://`. -/
def matchedText (s : List Char) : List Char :=
  if startsWith ("https://".toList) s then "https://".toList else "http://".toList

end NihtChef

namespace NihtChef.IndexJs

open NihtChef

/-- `resolveId(id)` of the `http()` plugin in `src/index.js` (lines 256-270):
on a regex match, build the record `{ isHttps: match[0] === "https://",
url: id }`, derive `newId` as the substring after the last `/` truncated at
the first `.`, store the record under `newId` and return it; otherwise
return `undefined` and leave the table alone.  No network request is made. -/
def resolveId (urls : UrlMap) (id : List Char) :
    Option (List Char) × UrlMap × List Request :=
  if httpExpTest id then
    let record : UrlRecord := { isHttps := matchedText id = "https://".toList, url := id }
    let newId := takeBeforeDot (afterLast '/' id)
    (some newId, mapSet newId record urls, [])
  else
    (none, urls, [])

/-- `load(id)` of the `http()` plugin in `src/index.js` (lines 271-276):
when `urls.has(id)`, fetch the recorded URL over `https` when `isHttps`
(else `http`) — one request — and return the body promise; otherwise
return `undefined` and issue no request.  The table is never modified. -/
def load (urls : UrlMap) (id : List Char) :
    Option Request × UrlMap × List Request :=
  match mapGet id urls with
  | some r => (some { url := r.url, https := r.isHttps }, urls,
               [{ url := r.url, https := r.isHttps }])
  | none => (none, urls, [])

/-- A sequence of `resolveId` calls from a given table: returns the final
table and the list of identifiers returned along the way. -/
def resolveSeq : UrlMap → List (List Char) → UrlMap × List (List Char)
  | st, [] => (st, [])
  | st, s :: rest =>
    let step := resolveId st s
    let next := resolveSeq step.2.1 rest
    (next.fst, step.fst.toList ++ next.snd)

end NihtChef.IndexJs

namespace NihtChef.Part000

open NihtChef

/-- `resolveId(id)` of the `http()` plugin in `src/unnamed/part_000`
(lines 199-213); the code is the same as in `src/index.js` up to quote
style and semicolons. -/
def resolveId (urls : UrlMap) (id : List Char) :
    Option (List Char) × UrlMap × List Request :=
  if httpExpTest id then
    let record : UrlRecord := { isHttps := matchedText id = "https://".toList, url := id }
    let newId := takeBeforeDot (afterLast '/' id)
    (some newId, mapSet newId record urls, [])
  else
    (none, urls, [])

/-- `load(id)` of the `http()` plugin in `src/unnamed/part_000`
(lines 214-219). -/
def load (urls : UrlMap) (id : List Char) :
    Option Request × UrlMap × List Request :=
  match mapGet id urls with
  | some r => (some { url := r.url, https := r.isHttps }, urls,
               [{ url := r.url, https := r.isHttps }])
  | none => (none, urls, [])

end NihtChef.Part000

namespace NihtChef

/-- The short identifier derived by `resolveId` from a matching specifier:
substring after the last `/`, truncated at the first `.`. -/
def shortId (s : List Char) : List Char :=
  takeBeforeDot (afterLast '/' s)

end NihtChef

namespace NihtChef

theorem mapGet_mapSet_self (k : List Char) (v : UrlRecord) (m : UrlMap) :
    mapGet k (mapSet k v m) = some v := by
  induction m with
  | nil => simp [mapSet, mapGet]
  | cons p rest ih =>
    obtain ⟨k', v'⟩ := p
    by_cases h : k' = k
    · simp [mapSet, mapGet, h]
    · simp [mapSet, mapGet, h, ih]

theorem mapGet_mapSet_ne (k k' : List Char) (v : UrlRecord) (m : UrlMap)
    (h : k ≠ k') : mapGet k (mapSet k' v m) = mapGet k m := by
  induction m with
  | nil => simp [mapSet, mapGet, Ne.symm h]
  | cons p rest ih =>
    obtain ⟨k₀, v₀⟩ := p
    by_cases h0 : k₀ = k'
    · subst h0
      simp [mapSet, mapGet, Ne.symm h, h]
    · by_cases h1 : k₀ = k
      · subst h1
        simp [mapSet, mapGet, h]
      · simp [mapSet, mapGet, h0, h1, ih]

theorem mapHas_mapSet_of (k k' : List Char) (v : UrlRecord) (m : UrlMap)
    (h : mapHas k m = true) : mapHas k (mapSet k' v m) = true := by
  by_cases hk : k = k'
  · subst hk
    simp [mapHas, mapGet_mapSet_self]
  · simpa [mapHas, mapGet_mapSet_ne k k' v m hk] using h

theorem mapSet_idem (k : List Char) (v : UrlRecord) (m : UrlMap) :
    mapSet k v (mapSet k v m) = mapSet k v m := by
  induction m with
  | nil => simp [mapSet]
  | cons p rest ih =>
    obtain ⟨k₀, v₀⟩ := p
    by_cases h0 : k₀ = k
    · simp [mapSet, h0]
    · simp [mapSet, h0, ih]

theorem takeBeforeDot_eq_nil_iff (l : List Char) :
    takeBeforeDot l = [] ↔ l = [] ∨ l.head? = some '.' := by
  cases l with
  | nil => simp [takeBeforeDot]
  | cons a as =>
    by_cases h : a = '.'
    · simp [takeBeforeDot, h]
    · simp [takeBeforeDot, h]

theorem matchedText_eq_iff (s : List Char) :
    ((matchedText s = "https://".toList) : Bool) =
      startsWith ("https://".toList) s := by
  by_cases h : startsWith ("https://".toList) s
  · simp [matchedText, h]
  · simp [matchedText, h]

end NihtChef

namespace NihtChef

theorem mapHas_mapSet_ne (k k' : List Char) (v : UrlRecord) (m : UrlMap)
    (h : k ≠ k') : mapHas k (mapSet k' v m) = mapHas k m := by
  simp [mapHas, mapGet_mapSet_ne k k' v m h]

theorem startsWith_iff_append (p s : List Char) :
    startsWith p s = true ↔ ∃ t, s = p ++ t := by
  induction p generalizing s with
  | nil => simp [startsWith]
  | cons a ps ih =>
    cases s with
    | nil => simp [startsWith]
    | cons b bs =>
      simp only [startsWith, Bool.and_eq_true, decide_eq_true_eq, ih,
        List.cons_append, List.cons.injEq]
      constructor
      · rintro ⟨rfl, t, rfl⟩
        exact ⟨t, rfl, rfl⟩
      · rintro ⟨t, rfl, rfl⟩
        exact ⟨rfl, t, rfl⟩

theorem slash_mem_of_match (s : List Char) (h : httpExpTest s = true) :
    '/' ∈ s := by
  rw [httpExpTest, Bool.or_eq_true] at h
  rcases h with h1 | h1 <;>
  · obtain ⟨t, rfl⟩ := (startsWith_iff_append _ _).mp h1
    exact List.mem_append.mpr (Or.inl (by decide))

theorem afterLast_spec (c : Char) (s : List Char) (h : c ∈ s) :
    ∃ pre, s = pre ++ c :: afterLast c s ∧ c ∉ afterLast c s := by
  induction s with
  | nil => cases h
  | cons a as ih =>
    by_cases hmem : c ∈ as
    · obtain ⟨pre, heq, hnot⟩ := ih hmem
      refine ⟨a :: pre, ?_, ?_⟩
      · have hr : afterLast c (a :: as) = afterLast c as := by
          simp [afterLast, hmem]
        rw [hr, List.cons_append, ← heq]
      · simpa [afterLast, hmem] using hnot
    · have hac : a = c := by
        rcases List.mem_cons.mp h with h1 | h1
        · exact h1.symm
        · exact absurd h1 hmem
      have hr : afterLast c (a :: as) = as := by
        simp [afterLast, hmem, hac]
      exact ⟨[], by rw [hr, List.nil_append, hac], by rw [hr]; exact hmem⟩

theorem takeBeforeDot_eq_takeWhile (l : List Char) :
    takeBeforeDot l = List.takeWhile (fun c => c != '.') l := by
  induction l with
  | nil => simp [takeBeforeDot]
  | cons a as ih =>
    by_cases h : a = '.'
    · simp [takeBeforeDot, List.takeWhile_cons, h]
    · simp [takeBeforeDot, List.takeWhile_cons, h, ih]

theorem resolveId_match (st : UrlMap) (s : List Char) (h : httpExpTest s = true) :
    IndexJs.resolveId st s =
      (some (shortId s),
       mapSet (shortId s)
         { isHttps := startsWith ("https://".toList) s, url := s } st,
       []) := by
  by_cases hs : startsWith ("https://".toList) s <;>
    simp [IndexJs.resolveId, h, shortId, matchedText, hs]

theorem resolveId_nomatch (st : UrlMap) (s : List Char)
    (h : httpExpTest s = false) :
    IndexJs.resolveId st s = (none, st, []) := by
  simp [IndexJs.resolveId, h]

theorem load_hit (st : UrlMap) (i : List Char) (r : UrlRecord)
    (h : mapGet i st = some r) :
    IndexJs.load st i =
      (some ⟨r.url, r.isHttps⟩, st, [⟨r.url, r.isHttps⟩]) := by
  simp [IndexJs.load, h]

theorem load_miss (st : UrlMap) (i : List Char) (h : mapGet i st = none) :
    IndexJs.load st i = (none, st, []) := by
  simp [IndexJs.load, h]

end NihtChef

namespace NihtChef

/-- C1: for every specifier matching `^https?://`, `resolveId` returns
exactly the substring of the specifier after its last `/` truncated at the
first `.` of that substring; in particular
`https://example.com/lib/util.js` resolves to `util`. -/
theorem C1_resolve_short_id (st : UrlMap) (s : List Char)
    (h : httpExpTest s = true) :
    (∃ pre seg, s = pre ++ '/' :: seg ∧ '/' ∉ seg ∧
      (IndexJs.resolveId st s).fst =
        some (List.takeWhile (fun c => c != '.') seg)) ∧
    (IndexJs.resolveId [] ("https://example.com/lib/util.js".toList)).fst =
      some ("util".toList) := by
  refine ⟨?_, by decide⟩
  obtain ⟨pre, heq, hnot⟩ := afterLast_spec '/' s (slash_mem_of_match s h)
  refine ⟨pre, afterLast '/' s, heq, hnot, ?_⟩
  simp [resolveId_match st s h, shortId, takeBeforeDot_eq_takeWhile]

/-- Witness for C1 at the spec's end-to-end example. -/
theorem C1_witness :
    httpExpTest ("https://example.com/lib/util.js".toList) = true ∧
    ((∃ pre seg, "https://example.com/lib/util.js".toList =
        pre ++ '/' :: seg ∧ '/' ∉ seg ∧
      (IndexJs.resolveId [] ("https://example.com/lib/util.js".toList)).fst =
        some (List.takeWhile (fun c => c != '.') seg)) ∧
    (IndexJs.resolveId [] ("https://example.com/lib/util.js".toList)).fst =
      some ("util".toList)) :=
  ⟨by decide, C1_resolve_short_id [] _ (by decide)⟩

/-- C2: `load` on the identifier returned by `resolveId` issues exactly one
network request, to the original specifier URL, over the HTTPS transport
exactly when the specifier began with `https://`. -/
theorem C2_load_one_request (st : UrlMap) (s i : List Char)
    (h : httpExpTest s = true)
    (hres : (IndexJs.resolveId st s).fst = some i) :
    (IndexJs.load (IndexJs.resolveId st s).2.1 i).2.2 =
      [{ url := s, https := startsWith ("https://".toList) s }] := by
  rw [resolveId_match st s h] at hres
  simp only [Option.some.injEq] at hres
  subst hres
  rw [resolveId_match st s h]
  simp [IndexJs.load, mapGet_mapSet_self]

/-- Witness for C2: loading `util` after resolving the example specifier
requests exactly that URL over HTTPS. -/
theorem C2_witness :
    httpExpTest ("https://example.com/lib/util.js".toList) = true ∧
    (IndexJs.resolveId [] ("https://example.com/lib/util.js".toList)).fst =
      some ("util".toList) ∧
    (IndexJs.load
        (IndexJs.resolveId [] ("https://example.com/lib/util.js".toList)).2.1
        ("util".toList)).2.2 =
      [{ url := "https://example.com/lib/util.js".toList, https := true }] :=
  ⟨by decide, by decide,
    (C2_load_one_request [] _ _ (by decide) (by decide)).trans (by decide)⟩

/-- C3: a specifier not matching `^https?://` resolves to nothing, leaves
the table untouched and issues no request, so resolution falls through. -/
theorem C3_nonmatching_returns_nothing (st : UrlMap) (s : List Char)
    (h : httpExpTest s = false) :
    IndexJs.resolveId st s = (none, st, []) :=
  resolveId_nomatch st s h

/-- Witness for C3 at `./local/file.js`. -/
theorem C3_witness :
    httpExpTest ("./local/file.js".toList) = false ∧
    IndexJs.resolveId [] ("./local/file.js".toList) = (none, [], []) :=
  ⟨by decide, C3_nonmatching_returns_nothing [] _ (by decide)⟩

theorem resolveSeq_no_new_keys (specs : List (List Char)) (st : UrlMap)
    (i : List Char) (hst : mapHas i st = false)
    (hni : i ∉ (IndexJs.resolveSeq st specs).snd) :
    mapHas i (IndexJs.resolveSeq st specs).fst = false := by
  induction specs generalizing st with
  | nil => simpa [IndexJs.resolveSeq] using hst
  | cons s rest ih =>
    by_cases h : httpExpTest s = true
    · simp only [IndexJs.resolveSeq, resolveId_match st s h,
        Option.toList_some, List.mem_append, List.mem_singleton,
        not_or] at hni ⊢
      exact ih (mapSet (shortId s) _ st)
        (by rw [mapHas_mapSet_ne _ _ _ _ hni.1]; exact hst) hni.2
    · have h' : httpExpTest s = false := by simpa using h
      simp only [IndexJs.resolveSeq, resolveId_nomatch st s h',
        Option.toList_none, List.nil_append] at hni ⊢
      exact ih st hst hni

/-- C4: an identifier never returned by any prior `resolveId` call is not a
key of the table, so `load` returns nothing, changes nothing and issues no
network request. -/
theorem C4_unresolved_load_nothing (specs : List (List Char)) (i : List Char)
    (h : i ∉ (IndexJs.resolveSeq [] specs).snd) :
    IndexJs.load (IndexJs.resolveSeq [] specs).fst i =
      (none, (IndexJs.resolveSeq [] specs).fst, []) := by
  have hh := resolveSeq_no_new_keys specs [] i rfl h
  cases hg : mapGet i (IndexJs.resolveSeq [] specs).fst with
  | none => exact load_miss _ _ hg
  | some r =>
    rw [mapHas, hg] at hh
    simp at hh

/-- Witness for C4: after resolving the example URL, loading `lodash`
(never returned by `resolveId`) does nothing. -/
theorem C4_witness :
    ("lodash".toList ∉
      (IndexJs.resolveSeq [] [("https://example.com/lib/util.js".toList)]).snd) ∧
    IndexJs.load
        (IndexJs.resolveSeq [] [("https://example.com/lib/util.js".toList)]).fst
        ("lodash".toList) =
      (none,
       (IndexJs.resolveSeq [] [("https://example.com/lib/util.js".toList)]).fst,
       []) :=
  ⟨by decide, C4_unresolved_load_nothing _ _ (by decide)⟩

end NihtChef

namespace NihtChef

/-- C5 fails on the code: the specifier `https://example.com/` matches the
regex, yet `resolveId` returns the empty identifier (the substring after
the last `/` is empty). -/
theorem C5_counterexample :
    httpExpTest ("https://example.com/".toList) = true ∧
    (IndexJs.resolveId [] ("https://example.com/".toList)).fst =
      some ([] : List Char) := by
  constructor <;> decide

/-- C5 (amended): for a matching specifier whose final path segment is
non-empty and does not begin with `.`, `resolveId` returns a non-empty
identifier. -/
theorem C5_nonempty_when_segment_proper (st : UrlMap) (s : List Char)
    (h : httpExpTest s = true) (h1 : afterLast '/' s ≠ [])
    (h2 : (afterLast '/' s).head? ≠ some '.') :
    ∃ i, (IndexJs.resolveId st s).fst = some i ∧ i ≠ [] := by
  refine ⟨takeBeforeDot (afterLast '/' s),
    by simp [resolveId_match st s h, shortId], ?_⟩
  intro hnil
  rcases (takeBeforeDot_eq_nil_iff _).mp hnil with h' | h'
  · exact h1 h'
  · exact h2 h'

/-- Witness for the amended C5 at the spec's example specifier. -/
theorem C5_witness :
    httpExpTest ("https://example.com/lib/util.js".toList) = true ∧
    afterLast '/' ("https://example.com/lib/util.js".toList) ≠ [] ∧
    (afterLast '/' ("https://example.com/lib/util.js".toList)).head? ≠
      some '.' ∧
    (∃ i, (IndexJs.resolveId []
        ("https://example.com/lib/util.js".toList)).fst = some i ∧ i ≠ []) :=
  ⟨by decide, by decide, by decide,
    C5_nonempty_when_segment_proper [] _ (by decide) (by decide) (by decide)⟩

/-- C6: two distinct matching specifiers with the same final segment before
the first `.` resolve to the same short identifier, the second resolution
overwrites the first record, and a subsequent `load` of that identifier
fetches the second URL. -/
theorem C6_collision_last_wins (st : UrlMap) (s1 s2 : List Char)
    (h1 : httpExpTest s1 = true) (h2 : httpExpTest s2 = true)
    (hne : s1 ≠ s2) (hcol : shortId s1 = shortId s2) :
    (IndexJs.resolveId st s1).fst =
      (IndexJs.resolveId (IndexJs.resolveId st s1).2.1 s2).fst ∧
    (IndexJs.resolveId (IndexJs.resolveId st s1).2.1 s2).fst =
      some (shortId s2) ∧
    (IndexJs.load (IndexJs.resolveId (IndexJs.resolveId st s1).2.1 s2).2.1
        (shortId s2)).2.2 =
      [{ url := s2, https := startsWith ("https://".toList) s2 }] := by
  simp only [resolveId_match st s1 h1, resolveId_match _ s2 h2]
  refine ⟨by rw [hcol], trivial, ?_⟩
  simp [IndexJs.load, mapGet_mapSet_self]

/-- Witness for C6: `https://example.com/lib/util.js` and
`http://cdn.other.net/util.min.js` collide on `util`; loading `util`
afterwards fetches the second URL over plain HTTP. -/
theorem C6_witness :
    (let s1 := "https://example.com/lib/util.js".toList
     let s2 := "http://cdn.other.net/util.min.js".toList
     httpExpTest s1 = true ∧ httpExpTest s2 = true ∧ s1 ≠ s2 ∧
     shortId s1 = shortId s2 ∧
     ((IndexJs.resolveId [] s1).fst =
        (IndexJs.resolveId (IndexJs.resolveId [] s1).2.1 s2).fst ∧
      (IndexJs.resolveId (IndexJs.resolveId [] s1).2.1 s2).fst =
        some (shortId s2) ∧
      (IndexJs.load (IndexJs.resolveId (IndexJs.resolveId [] s1).2.1 s2).2.1
          (shortId s2)).2.2 =
        [{ url := s2, https := startsWith ("https://".toList) s2 }])) :=
  ⟨by decide, by decide, by decide, by decide,
    C6_collision_last_wins [] _ _ (by decide) (by decide) (by decide)
      (by decide)⟩

end NihtChef

namespace NihtChef

/-- C7: a key present in the table survives every later `resolveId` and
`load` call (entries are never deleted), `load` never changes the table,
and loads are not cached: each repeated `load` of the same identifier
re-issues the same network request. -/
theorem C7_entries_persist_no_cache (st : UrlMap) (k s i : List Char)
    (r : UrlRecord) (hk : mapGet k st = some r) :
    mapHas k (IndexJs.resolveId st s).2.1 = true ∧
    (IndexJs.load st i).2.1 = st ∧
    mapHas k (IndexJs.load st i).2.1 = true ∧
    (IndexJs.load st k).2.2 = [{ url := r.url, https := r.isHttps }] ∧
    (IndexJs.load (IndexJs.load st k).2.1 k).2.2 =
      [{ url := r.url, https := r.isHttps }] := by
  have hkh : mapHas k st = true := by simp [mapHas, hk]
  have hld : ∀ j, (IndexJs.load st j).2.1 = st := by
    intro j
    cases hg : mapGet j st with
    | none => rw [load_miss st j hg]
    | some r' => rw [load_hit st j r' hg]
  refine ⟨?_, hld i, by rw [hld i]; exact hkh, ?_, ?_⟩
  · by_cases h : httpExpTest s = true
    · rw [resolveId_match st s h]
      exact mapHas_mapSet_of _ _ _ _ hkh
    · have h' : httpExpTest s = false := by simpa using h
      rw [resolveId_nomatch st s h']
      exact hkh
  · rw [load_hit st k r hk]
  · rw [hld k, load_hit st k r hk]

/-- Witness for C7 on a one-entry table. -/
theorem C7_witness :
    (let st : UrlMap :=
      [("util".toList,
        { isHttps := true, url := "https://example.com/lib/util.js".toList })]
     let r : UrlRecord :=
       { isHttps := true, url := "https://example.com/lib/util.js".toList }
     mapGet ("util".toList) st = some r ∧
     (mapHas ("util".toList)
        (IndexJs.resolveId st ("http://x.org/a.js".toList)).2.1 = true ∧
      (IndexJs.load st ("a".toList)).2.1 = st ∧
      mapHas ("util".toList) (IndexJs.load st ("a".toList)).2.1 = true ∧
      (IndexJs.load st ("util".toList)).2.2 =
        [{ url := r.url, https := r.isHttps }] ∧
      (IndexJs.load (IndexJs.load st ("util".toList)).2.1 ("util".toList)).2.2 =
        [{ url := r.url, https := r.isHttps }])) :=
  ⟨by decide,
    C7_entries_persist_no_cache _ _ ("http://x.org/a.js".toList)
      ("a".toList) _ (by decide)⟩

/-- C8: `resolveId` issues no network request, and its only effect on the
table is to insert or overwrite the one entry for the identifier it
returns (or to leave the table unchanged when the specifier does not
match). -/
theorem C8_resolve_pure_bookkeeping (st : UrlMap) (s : List Char) :
    (IndexJs.resolveId st s).2.2 = [] ∧
    ((IndexJs.resolveId st s).2.1 = st ∨
      ∃ i r, (IndexJs.resolveId st s).fst = some i ∧
        (IndexJs.resolveId st s).2.1 = mapSet i r st) := by
  by_cases h : httpExpTest s = true
  · rw [resolveId_match st s h]
    exact ⟨rfl, Or.inr ⟨shortId s, _, rfl, rfl⟩⟩
  · have h' : httpExpTest s = false := by simpa using h
    rw [resolveId_nomatch st s h']
    exact ⟨rfl, Or.inl rfl⟩

/-- C9: `resolveId` is deterministic (the returned identifier does not
depend on the table) and idempotent (a second resolution of the same
specifier returns the same identifier and leaves the table unchanged). -/
theorem C9_resolve_deterministic_idempotent (st st' : UrlMap)
    (s : List Char) :
    (IndexJs.resolveId st s).fst = (IndexJs.resolveId st' s).fst ∧
    (IndexJs.resolveId (IndexJs.resolveId st s).2.1 s).fst =
      (IndexJs.resolveId st s).fst ∧
    (IndexJs.resolveId (IndexJs.resolveId st s).2.1 s).2.1 =
      (IndexJs.resolveId st s).2.1 := by
  by_cases h : httpExpTest s = true
  · simp only [resolveId_match st s h, resolveId_match st' s h,
      resolveId_match _ s h]
    exact ⟨trivial, trivial, mapSet_idem _ _ _⟩
  · have h' : httpExpTest s = false := by simpa using h
    simp only [resolveId_nomatch st s h', resolveId_nomatch st' s h']
    exact ⟨trivial, trivial, trivial⟩

/-- C10: the two copies of the plugin shipped in `src/index.js` and
`src/unnamed/part_000` are behaviorally equivalent: `resolveId` and `load`
agree on every input (same identifier, same table, same requests). -/
theorem C10_copies_equivalent (st : UrlMap) (s i : List Char) :
    IndexJs.resolveId st s = Part000.resolveId st s ∧
    IndexJs.load st i = Part000.load st i :=
  ⟨rfl, rfl⟩

end NihtChef
